import Mathlib

/-!
Shallow embedding of the state-caching and call-tree layers of the
blockifier repository (files `src/blockifier/src/state/cached_state.rs`
and `src/crates/blockifier/src/execution/call_info.rs`), together with
theorems settling the specification claims about them.

Rust `HashMap` / `IndexMap` contents are embedded as association lists
(`List (K × V)`): `alInsert` mirrors map insertion (an existing key is
updated in place, a new key is appended, matching `IndexMap` order
semantics and ordinary map semantics for lookups), `alLookup` mirrors
`get`.  The iteration order of a Rust `std::collections::HashMap` is
unspecified; where a theorem depends on iteration order this is made
explicit by quantifying over the flat iteration sequence.
-/

set_option autoImplicit false

namespace Blockifier

/-- Contract address (wrapper over a felt in the source; opaque value here). -/
abbrev ContractAddress := Nat

/-- Class hash (wrapper over a felt in the source; opaque value here). -/
abbrev ClassHash := Nat

/-- Nonce (wrapper over a felt in the source; opaque value here). -/
abbrev Nonce := Nat

/-- Storage key (wrapper over a felt in the source; opaque value here). -/
abbrev StorageKey := Nat

/-- Field element.  Values are opaque here; `default` is `0`. -/
abbrev StarkFelt := Nat

/-- Contract class object: opaque content, only stored and returned. -/
abbrev ContractClass := Nat

/-- `type ContractStorageKey = (ContractAddress, StorageKey);` -/
abbrev ContractStorageKey := ContractAddress × StorageKey

/-! ## Association-list model of `HashMap` / `IndexMap` -/

/-- First-match lookup, mirroring `HashMap::get` on an association list whose
keys are pairwise distinct. -/
def alLookup {K V : Type} [DecidableEq K] : List (K × V) → K → Option V
  | [], _ => none
  | (k0, v0) :: rest, k => if k0 = k then some v0 else alLookup rest k

/-- Map insertion: an existing key is updated in place, a new key is appended.
This mirrors `HashMap::insert` (for lookups) and `IndexMap::insert` (also for
order). -/
def alInsert {K V : Type} [DecidableEq K] : List (K × V) → K → V → List (K × V)
  | [], k, v => [(k, v)]
  | (k0, v0) :: rest, k, v =>
    if k0 = k then (k, v) :: rest else (k0, v0) :: alInsert rest k v

/-- The keys of an association list are pairwise distinct.  This invariant
holds for every list built from `[]` by `alInsert`, just as it does for the
entries of a Rust map. -/
def NodupKeys {K V : Type} (m : List (K × V)) : Prop := (m.map Prod.fst).Nodup

@[simp] theorem alLookup_nil {K V : Type} [DecidableEq K] (k : K) :
    alLookup ([] : List (K × V)) k = none := rfl

@[simp] theorem alLookup_cons {K V : Type} [DecidableEq K]
    (k0 k : K) (v0 : V) (rest : List (K × V)) :
    alLookup ((k0, v0) :: rest) k = if k0 = k then some v0 else alLookup rest k := rfl

theorem alLookup_append {K V : Type} [DecidableEq K]
    (l1 l2 : List (K × V)) (k : K) :
    alLookup (l1 ++ l2) k =
      match alLookup l1 k with
      | some v => some v
      | none => alLookup l2 k := by
  induction l1 with
  | nil => simp
  | cons p rest ih =>
    obtain ⟨k0, v0⟩ := p
    by_cases h : k0 = k <;> simp [h, ih]

theorem alLookup_alInsert_self {K V : Type} [DecidableEq K]
    (m : List (K × V)) (k : K) (v : V) :
    alLookup (alInsert m k v) k = some v := by
  induction m with
  | nil => simp [alInsert]
  | cons p rest ih =>
    obtain ⟨k0, v0⟩ := p
    by_cases h : k0 = k <;> simp [alInsert, h, ih]

theorem alLookup_alInsert_ne {K V : Type} [DecidableEq K]
    (m : List (K × V)) (k k' : K) (v : V) (hne : k' ≠ k) :
    alLookup (alInsert m k v) k' = alLookup m k' := by
  have hne' : ¬k = k' := hne.symm
  induction m with
  | nil => simp [alInsert, hne']
  | cons p rest ih =>
    obtain ⟨k0, v0⟩ := p
    by_cases h : k0 = k
    · subst h
      simp [alInsert, hne']
    · by_cases h' : k0 = k'
      · subst h'
        simp [alInsert, h]
      · simp [alInsert, h, h', ih]

/-- Inserting a key that is absent preserves every existing entry. -/
theorem alLookup_alInsert_of_absent {K V : Type} [DecidableEq K]
    (m : List (K × V)) (k : K) (v : V) (habs : alLookup m k = none)
    (k' : K) (v' : V) (h : alLookup m k' = some v') :
    alLookup (alInsert m k v) k' = some v' := by
  have hne : k' ≠ k := by
    intro he
    subst he
    rw [habs] at h
    exact Option.noConfusion h
  rw [alLookup_alInsert_ne m k k' v hne]
  exact h

theorem mem_keys_alInsert {K V : Type} [DecidableEq K]
    (m : List (K × V)) (k a : K) (v : V) :
    a ∈ (alInsert m k v).map Prod.fst ↔ a = k ∨ a ∈ m.map Prod.fst := by
  induction m with
  | nil =>
    simp only [alInsert, List.map_cons, List.map_nil, List.mem_cons,
      List.not_mem_nil, or_false]
  | cons p rest ih =>
    obtain ⟨k0, v0⟩ := p
    by_cases h : k0 = k
    · subst h
      have e : alInsert ((k0, v0) :: rest) k0 v = (k0, v) :: rest := by
        simp [alInsert]
      rw [e]
      simp only [List.map_cons, List.mem_cons]
      tauto
    · have e : alInsert ((k0, v0) :: rest) k v = (k0, v0) :: alInsert rest k v := by
        simp [alInsert, h]
      rw [e]
      simp only [List.map_cons, List.mem_cons, ih]
      tauto

theorem nodupKeys_alInsert {K V : Type} [DecidableEq K]
    (m : List (K × V)) (k : K) (v : V) (hm : NodupKeys m) :
    NodupKeys (alInsert m k v) := by
  induction m with
  | nil => simp [alInsert, NodupKeys]
  | cons p rest ih =>
    obtain ⟨k0, v0⟩ := p
    unfold NodupKeys at hm ⊢
    rw [List.map_cons, List.nodup_cons] at hm
    obtain ⟨hk0, hrest⟩ := hm
    by_cases h : k0 = k
    · subst h
      have e : alInsert ((k0, v0) :: rest) k0 v = (k0, v) :: rest := by
        simp [alInsert]
      rw [e]
      simp only [List.map_cons, List.nodup_cons]
      exact ⟨hk0, hrest⟩
    · have ih' := ih hrest
      have e : alInsert ((k0, v0) :: rest) k v = (k0, v0) :: alInsert rest k v := by
        simp [alInsert, h]
      rw [e]
      simp only [List.map_cons, List.nodup_cons]
      refine ⟨?_, ih'⟩
      intro hmem
      rcases (mem_keys_alInsert rest k k0 v).mp hmem with he | hmem'
      · exact h he
      · exact hk0 hmem'

@[simp] theorem nodupKeys_nil {K V : Type} : NodupKeys ([] : List (K × V)) := by
  simp [NodupKeys]

/-- On an association list with pairwise-distinct keys, lookup succeeding with
`v` is the same as the entry `(k, v)` being present. -/
theorem alLookup_eq_some_iff {K V : Type} [DecidableEq K]
    (m : List (K × V)) (hm : NodupKeys m) (k : K) (v : V) :
    alLookup m k = some v ↔ (k, v) ∈ m := by
  induction m with
  | nil => simp
  | cons p rest ih =>
    obtain ⟨k0, v0⟩ := p
    unfold NodupKeys at hm
    rw [List.map_cons, List.nodup_cons] at hm
    obtain ⟨hk0, hrest⟩ := hm
    by_cases h : k0 = k
    · subst h
      have e : alLookup ((k0, v0) :: rest) k0 = some v0 := by simp
      rw [e, List.mem_cons, Option.some_inj]
      constructor
      · rintro rfl
        exact Or.inl rfl
      · rintro (he | hmem)
        · injection he with h1 h2
          exact h2.symm
        · exact absurd (List.mem_map_of_mem Prod.fst hmem) hk0
    · simp only [alLookup_cons, if_neg h, List.mem_cons, ih hrest]
      constructor
      · exact Or.inr
      · rintro (he | hmem)
        · exact absurd (congrArg Prod.fst he).symm h
        · exact hmem

theorem nodupKeys_filter {K V : Type} (p : K × V → Bool) (m : List (K × V))
    (hm : NodupKeys m) : NodupKeys (m.filter p) := by
  unfold NodupKeys at hm ⊢
  exact List.Nodup.sublist (List.Sublist.map Prod.fst (List.filter_sublist m)) hm

/-! ## `subtract_mappings` (crate utils)

The function `crate::utils::subtract_mappings`, called by the
`From<CachedState<SR>> for StateDiff` conversion, is not part of the two
source files of this repository. -/

/-- Modelled from the spec: `subtract_mappings` from `crate::utils` (its source
file is absent from the repository snapshot).  Per the spec, "an entry from the
write map is included in the diff if and only if no initial-value entry exists
for that key or the initial value differs from the write value". -/
def subtractMappings {K V : Type} [DecidableEq K] [DecidableEq V]
    (lhs rhs : List (K × V)) : List (K × V) :=
  lhs.filter (fun p => decide (alLookup rhs p.1 ≠ some p.2))

/-- Key characterisation of `subtractMappings` on maps with distinct keys. -/
theorem alLookup_subtractMappings {K V : Type} [DecidableEq K] [DecidableEq V]
    (lhs rhs : List (K × V)) (hl : NodupKeys lhs) (k : K) (v : V) :
    alLookup (subtractMappings lhs rhs) k = some v ↔
      alLookup lhs k = some v ∧ alLookup rhs k ≠ some v := by
  have hsub : NodupKeys (subtractMappings lhs rhs) := nodupKeys_filter _ lhs hl
  rw [alLookup_eq_some_iff _ hsub, alLookup_eq_some_iff _ hl]
  unfold subtractMappings
  rw [List.mem_filter]
  simp

/-! ## Errors (`src/blockifier/src/state/errors.rs`, as used by the sources) -/

/-- Errors a `StateReader` can produce.  Only `undeclaredClassHash` is raised
by the in-repository `DictStateReader`; `other` stands for any further failure
an external reader implementation may return. -/
inductive StateReaderError : Type where
  | undeclaredClassHash (h : ClassHash)
  | other (code : Nat)
  deriving DecidableEq, Repr

/-- Errors of the `State` operations of `CachedState`.  `tryFromIntError`
models the `std::num::TryFromIntError` produced by `usize::try_from` inside
`increment_nonce` and converted into a `StateError` by the `?` operator. -/
inductive StateError : Type where
  | outOfRangeContractAddress
  | unavailableContractAddress (a : ContractAddress)
  | tryFromIntError
  | fromReader (e : StateReaderError)
  deriving DecidableEq, Repr

/-- Result of one Rust operation: a normal return, a typed error (`Err`), or a
`panic!` / `expect` failure (which is not a return value in Rust and is kept
separate here). -/
inductive Outcome (α : Type) : Type where
  | ok (a : α)
  | err (e : StateError)
  | panicked
  deriving DecidableEq, Repr

/-! ## `StateCache` -/

/-- `StateCache`: six per-quantity maps, `{storage, nonce, class hash} ×
{initial values, writes}`.  The Rust fields are `HashMap`s; they are embedded
as association lists built by `alInsert`. -/
structure StateCache : Type where
  nonce_initial_values : List (ContractAddress × Nonce) := []
  class_hash_initial_values : List (ContractAddress × ClassHash) := []
  storage_initial_values : List (ContractStorageKey × StarkFelt) := []
  nonce_writes : List (ContractAddress × Nonce) := []
  class_hash_writes : List (ContractAddress × ClassHash) := []
  storage_writes : List (ContractStorageKey × StarkFelt) := []
  deriving Repr

/-- `StateCache::get_storage_at`: the write map first, then the initial map. -/
def StateCache.get_storage_at (c : StateCache) (contract_address : ContractAddress)
    (key : StorageKey) : Option StarkFelt :=
  match alLookup c.storage_writes (contract_address, key) with
  | some v => some v
  | none => alLookup c.storage_initial_values (contract_address, key)

/-- `StateCache::get_nonce_at`: the write map first, then the initial map. -/
def StateCache.get_nonce_at (c : StateCache) (contract_address : ContractAddress) :
    Option Nonce :=
  match alLookup c.nonce_writes contract_address with
  | some v => some v
  | none => alLookup c.nonce_initial_values contract_address

/-- `StateCache::get_class_hash_at`: the write map first, then the initial map. -/
def StateCache.get_class_hash_at (c : StateCache) (contract_address : ContractAddress) :
    Option ClassHash :=
  match alLookup c.class_hash_writes contract_address with
  | some v => some v
  | none => alLookup c.class_hash_initial_values contract_address

/-- `StateCache::set_storage_initial_value`. -/
def StateCache.set_storage_initial_value (c : StateCache)
    (contract_address : ContractAddress) (key : StorageKey) (value : StarkFelt) :
    StateCache :=
  { c with storage_initial_values :=
      alInsert c.storage_initial_values (contract_address, key) value }

/-- `StateCache::set_storage_value` (the write setter). -/
def StateCache.set_storage_value (c : StateCache)
    (contract_address : ContractAddress) (key : StorageKey) (value : StarkFelt) :
    StateCache :=
  { c with storage_writes := alInsert c.storage_writes (contract_address, key) value }

/-- `StateCache::set_nonce_initial_value`. -/
def StateCache.set_nonce_initial_value (c : StateCache)
    (contract_address : ContractAddress) (nonce : Nonce) : StateCache :=
  { c with nonce_initial_values := alInsert c.nonce_initial_values contract_address nonce }

/-- `StateCache::set_nonce_value` (the write setter). -/
def StateCache.set_nonce_value (c : StateCache)
    (contract_address : ContractAddress) (nonce : Nonce) : StateCache :=
  { c with nonce_writes := alInsert c.nonce_writes contract_address nonce }

/-- `StateCache::set_class_hash_initial_value`. -/
def StateCache.set_class_hash_initial_value (c : StateCache)
    (contract_address : ContractAddress) (class_hash : ClassHash) : StateCache :=
  { c with class_hash_initial_values :=
      alInsert c.class_hash_initial_values contract_address class_hash }

/-- `StateCache::set_class_hash_write`. -/
def StateCache.set_class_hash_write (c : StateCache)
    (contract_address : ContractAddress) (class_hash : ClassHash) : StateCache :=
  { c with class_hash_writes := alInsert c.class_hash_writes contract_address class_hash }

/-! ## `StateReader` and `DictStateReader` -/

/-- The `StateReader` trait: four point queries.  An implementation is a bundle
of pure query functions. -/
structure StateReader : Type where
  get_storage_at : ContractAddress → StorageKey → Except StateReaderError StarkFelt
  get_nonce_at : ContractAddress → Except StateReaderError Nonce
  get_contract_class : ClassHash → Except StateReaderError ContractClass
  get_class_hash_at : ContractAddress → Except StateReaderError ClassHash

/-- `DictStateReader`: map-backed reference implementation of `StateReader`. -/
structure DictStateReader : Type where
  storage_view : List (ContractStorageKey × StarkFelt) := []
  address_to_nonce : List (ContractAddress × Nonce) := []
  address_to_class_hash : List (ContractAddress × ClassHash) := []
  class_hash_to_class : List (ClassHash × ContractClass) := []
  deriving Repr

/-- `DictStateReader::get_storage_at`: `unwrap_or_default`, never an error. -/
def DictStateReader.get_storage_at (r : DictStateReader)
    (contract_address : ContractAddress) (key : StorageKey) :
    Except StateReaderError StarkFelt :=
  .ok ((alLookup r.storage_view (contract_address, key)).getD 0)

/-- `DictStateReader::get_nonce_at`: `unwrap_or_default`, never an error. -/
def DictStateReader.get_nonce_at (r : DictStateReader)
    (contract_address : ContractAddress) : Except StateReaderError Nonce :=
  .ok ((alLookup r.address_to_nonce contract_address).getD 0)

/-- `DictStateReader::get_contract_class`: fails with `UndeclaredClassHash` for
an absent class hash. -/
def DictStateReader.get_contract_class (r : DictStateReader) (class_hash : ClassHash) :
    Except StateReaderError ContractClass :=
  match alLookup r.class_hash_to_class class_hash with
  | some contract_class => .ok contract_class
  | none => .error (.undeclaredClassHash class_hash)

/-- `DictStateReader::get_class_hash_at`: `unwrap_or_default`, never an error. -/
def DictStateReader.get_class_hash_at (r : DictStateReader)
    (contract_address : ContractAddress) : Except StateReaderError ClassHash :=
  .ok ((alLookup r.address_to_class_hash contract_address).getD 0)

/-- Package a `DictStateReader` as a `StateReader` trait object. -/
def DictStateReader.reader (r : DictStateReader) : StateReader :=
  { get_storage_at := r.get_storage_at
    get_nonce_at := r.get_nonce_at
    get_contract_class := r.get_contract_class
    get_class_hash_at := r.get_class_hash_at }

/-! ## `CachedState` -/

/-- One point query issued to the underlying `StateReader`.  Each `CachedState`
operation below also returns the list of queries it issued, which makes the
"exactly one underlying query" properties of the spec directly statable (this
plays the role of the call-counting reader stub mentioned by the spec). -/
inductive ReaderQuery : Type where
  | storage (a : ContractAddress) (k : StorageKey)
  | nonce (a : ContractAddress)
  | classHashAt (a : ContractAddress)
  | classAt (h : ClassHash)
  deriving DecidableEq, Repr

/-- `CachedState`: a `StateReader` plus a `StateCache` plus the read-through
class-code cache `class_hash_to_class`. -/
structure CachedState : Type where
  state_reader : StateReader
  cache : StateCache := {}
  class_hash_to_class : List (ClassHash × ContractClass) := []

/-- `CachedState::new`. -/
def CachedState.new (state_reader : StateReader) : CachedState :=
  { state_reader, cache := {}, class_hash_to_class := [] }

/-- `CachedState::get_storage_at` (`State` impl): on a cache miss, query the
reader and record the result as the initial value; then return the cache's
resolved value, panicking if it is (impossibly) still absent.  Mutations made
before an error are kept, as they are through Rust's `&mut self`. -/
def CachedState.get_storage_at (s : CachedState) (contract_address : ContractAddress)
    (key : StorageKey) : CachedState × List ReaderQuery × Outcome StarkFelt :=
  if (s.cache.get_storage_at contract_address key).isNone then
    match s.state_reader.get_storage_at contract_address key with
    | .error e => (s, [.storage contract_address key], .err (.fromReader e))
    | .ok storage_value =>
      let s1 : CachedState :=
        { s with cache := s.cache.set_storage_initial_value contract_address key storage_value }
      match s1.cache.get_storage_at contract_address key with
      | some value => (s1, [.storage contract_address key], .ok value)
      | none => (s1, [.storage contract_address key], .panicked)
  else
    match s.cache.get_storage_at contract_address key with
    | some value => (s, [], .ok value)
    | none => (s, [], .panicked)

/-- `CachedState::get_nonce_at` (`State` impl). -/
def CachedState.get_nonce_at (s : CachedState) (contract_address : ContractAddress) :
    CachedState × List ReaderQuery × Outcome Nonce :=
  if (s.cache.get_nonce_at contract_address).isNone then
    match s.state_reader.get_nonce_at contract_address with
    | .error e => (s, [.nonce contract_address], .err (.fromReader e))
    | .ok nonce =>
      let s1 : CachedState :=
        { s with cache := s.cache.set_nonce_initial_value contract_address nonce }
      match s1.cache.get_nonce_at contract_address with
      | some value => (s1, [.nonce contract_address], .ok value)
      | none => (s1, [.nonce contract_address], .panicked)
  else
    match s.cache.get_nonce_at contract_address with
    | some value => (s, [], .ok value)
    | none => (s, [], .panicked)

/-- `CachedState::get_contract_class` (`State` impl): read-through cache over
`class_hash_to_class`, propagating the reader's undeclared-class error. -/
def CachedState.get_contract_class (s : CachedState) (class_hash : ClassHash) :
    CachedState × List ReaderQuery × Outcome ContractClass :=
  if (alLookup s.class_hash_to_class class_hash).isNone then
    match s.state_reader.get_contract_class class_hash with
    | .error e => (s, [.classAt class_hash], .err (.fromReader e))
    | .ok contract_class =>
      let s1 : CachedState :=
        { s with class_hash_to_class := alInsert s.class_hash_to_class class_hash contract_class }
      match alLookup s1.class_hash_to_class class_hash with
      | some value => (s1, [.classAt class_hash], .ok value)
      | none => (s1, [.classAt class_hash], .panicked)
  else
    match alLookup s.class_hash_to_class class_hash with
    | some value => (s, [], .ok value)
    | none => (s, [], .panicked)

/-- `CachedState::get_class_hash_at` (`State` impl). -/
def CachedState.get_class_hash_at (s : CachedState) (contract_address : ContractAddress) :
    CachedState × List ReaderQuery × Outcome ClassHash :=
  if (s.cache.get_class_hash_at contract_address).isNone then
    match s.state_reader.get_class_hash_at contract_address with
    | .error e => (s, [.classHashAt contract_address], .err (.fromReader e))
    | .ok class_hash =>
      let s1 : CachedState :=
        { s with cache := s.cache.set_class_hash_initial_value contract_address class_hash }
      match s1.cache.get_class_hash_at contract_address with
      | some value => (s1, [.classHashAt contract_address], .ok value)
      | none => (s1, [.classHashAt contract_address], .panicked)
  else
    match s.cache.get_class_hash_at contract_address with
    | some value => (s, [], .ok value)
    | none => (s, [], .panicked)

/-- `CachedState::set_storage_at` (`State` impl): unconditionally records a
write; infallible and performs no read. -/
def CachedState.set_storage_at (s : CachedState) (contract_address : ContractAddress)
    (key : StorageKey) (value : StarkFelt) : CachedState :=
  { s with cache := s.cache.set_storage_value contract_address key value }

/-- `usize::try_from` on a felt value, for a platform whose `usize` is
`usizeBits` bits wide (64 on the usual targets, 32 on 32-bit targets). -/
def usizeTryFromFelt (usizeBits : Nat) (f : StarkFelt) : Option Nat :=
  if f < 2 ^ usizeBits then some f else none

/-- `CachedState::increment_nonce` (`State` impl), parameterised by the
platform pointer width: `usize::try_from(current_nonce.0)? as u64`, then
`1_u64 + current_nonce_as_u64` (u64 arithmetic, wrapping as in a release
build), then the result is recorded as a nonce write. -/
def CachedState.increment_nonce (usizeBits : Nat) (s : CachedState)
    (contract_address : ContractAddress) : CachedState × List ReaderQuery × Outcome Unit :=
  match s.get_nonce_at contract_address with
  | (s1, qs, .ok current_nonce) =>
    match usizeTryFromFelt usizeBits current_nonce with
    | none => (s1, qs, .err .tryFromIntError)
    | some current_nonce_as_usize =>
      let current_nonce_as_u64 := current_nonce_as_usize % 2 ^ 64
      let next_nonce_val := (1 + current_nonce_as_u64) % 2 ^ 64
      ({ s1 with cache := s1.cache.set_nonce_value contract_address next_nonce_val },
        qs, .ok ())
  | (s1, qs, .err e) => (s1, qs, .err e)
  | (s1, qs, .panicked) => (s1, qs, .panicked)

/-- `CachedState::set_class_hash_at` (`State` impl): reject the default
address, then read the current class hash (fill-on-miss) and reject if it is
non-default; only then record the write. -/
def CachedState.set_class_hash_at (s : CachedState) (contract_address : ContractAddress)
    (class_hash : ClassHash) : CachedState × List ReaderQuery × Outcome Unit :=
  if contract_address = 0 then (s, [], .err .outOfRangeContractAddress)
  else
    match s.get_class_hash_at contract_address with
    | (s1, qs, .ok current_class_hash) =>
      if current_class_hash ≠ 0 then
        (s1, qs, .err (.unavailableContractAddress contract_address))
      else
        ({ s1 with cache := s1.cache.set_class_hash_write contract_address class_hash },
          qs, .ok ())
    | (s1, qs, .err e) => (s1, qs, .err e)
    | (s1, qs, .panicked) => (s1, qs, .panicked)

/-! ## State diff extraction (`impl From<CachedState<SR>> for StateDiff`)

The conversion iterates the cache's `HashMap`s.  A `HashMap`'s iteration
order is unspecified, so the regrouping step is defined over an explicit flat
iteration sequence (a `List`); the conversion below feeds it the association
list standing for the map. -/

/-- `impl From<StorageView> for IndexMap<ContractAddress, IndexMap<StorageKey,
StarkFelt>>`: regroup a flat `(address, key) → value` iteration sequence into
a per-address `IndexMap`, via `entry(address).and_modify(insert).or_insert_with`.
A first-seen address is appended; within an address, a first-seen key is
appended and a repeated key is updated in place. -/
def storageViewGroup (flat : List (ContractStorageKey × StarkFelt)) :
    List (ContractAddress × List (StorageKey × StarkFelt)) :=
  flat.foldl
    (fun storage_updates p =>
      match p with
      | ((address, key), value) =>
        match alLookup storage_updates address with
        | some m => alInsert storage_updates address (alInsert m key value)
        | none => storage_updates ++ [(address, [(key, value)])])
    []

/-- The `StateDiff` produced by the consuming conversion.  Its four mappings
are `IndexMap`s in the source and are embedded as association lists in
emission order. -/
structure StateDiff : Type where
  deployed_contracts : List (ContractAddress × ClassHash)
  storage_diffs : List (ContractAddress × List (StorageKey × StarkFelt))
  declared_classes : List (ClassHash × ContractClass)
  nonces : List (ContractAddress × Nonce)
  deriving Repr

/-- `impl From<CachedState<SR>> for StateDiff`: subtract each write map
against its initial map; regroup the flat storage subtraction per address;
carry over the entire class-code cache as the declared classes. -/
def CachedState.intoStateDiff (s : CachedState) : StateDiff :=
  { deployed_contracts :=
      subtractMappings s.cache.class_hash_writes s.cache.class_hash_initial_values
    storage_diffs :=
      storageViewGroup (subtractMappings s.cache.storage_writes s.cache.storage_initial_values)
    declared_classes := s.class_hash_to_class
    nonces := subtractMappings s.cache.nonce_writes s.cache.nonce_initial_values }

/-- Lookup in the regrouped storage diff: address first, then key. -/
def storageDiffLookup (d : List (ContractAddress × List (StorageKey × StarkFelt)))
    (address : ContractAddress) (key : StorageKey) : Option StarkFelt :=
  match alLookup d address with
  | some m => alLookup m key
  | none => none

/-! ## Sequences of operations against a `CachedState` -/

/-- One operation of the `State` trait interface of `CachedState`. -/
inductive Op : Type where
  | getStorage (a : ContractAddress) (k : StorageKey)
  | getNonce (a : ContractAddress)
  | getContractClassOp (h : ClassHash)
  | getClassHashAt (a : ContractAddress)
  | setStorage (a : ContractAddress) (k : StorageKey) (v : StarkFelt)
  | incrementNonce (a : ContractAddress)
  | setClassHashAt (a : ContractAddress) (h : ClassHash)
  deriving DecidableEq, Repr

/-- Run one operation for its state effect (results and errors are delivered
to the interpreter and do not influence the state kept by the cache). -/
def execOp (usizeBits : Nat) (s : CachedState) : Op → CachedState
  | .getStorage a k => (s.get_storage_at a k).1
  | .getNonce a => (s.get_nonce_at a).1
  | .getContractClassOp h => (s.get_contract_class h).1
  | .getClassHashAt a => (s.get_class_hash_at a).1
  | .setStorage a k v => s.set_storage_at a k v
  | .incrementNonce a => (CachedState.increment_nonce usizeBits s a).1
  | .setClassHashAt a h => (s.set_class_hash_at a h).1

/-- Run a sequence of operations. -/
def execOps (usizeBits : Nat) (s : CachedState) (ops : List Op) : CachedState :=
  ops.foldl (execOp usizeBits) s

/-- Well-formedness of a cache: all six maps have pairwise-distinct keys, as
any Rust map does. -/
def StateCache.WF (c : StateCache) : Prop :=
  NodupKeys c.nonce_initial_values ∧ NodupKeys c.class_hash_initial_values ∧
    NodupKeys c.storage_initial_values ∧ NodupKeys c.nonce_writes ∧
    NodupKeys c.class_hash_writes ∧ NodupKeys c.storage_writes

/-- Well-formedness of a cached state: its cache is well-formed. -/
def CachedState.WF (s : CachedState) : Prop := s.cache.WF

theorem wf_empty_cache : StateCache.WF {} := by
  refine ⟨?_, ?_, ?_, ?_, ?_, ?_⟩ <;> simp

theorem wf_set_storage_initial_value {c : StateCache} (hc : c.WF)
    (a : ContractAddress) (k : StorageKey) (v : StarkFelt) :
    (c.set_storage_initial_value a k v).WF := by
  obtain ⟨h1, h2, h3, h4, h5, h6⟩ := hc
  exact ⟨h1, h2, nodupKeys_alInsert _ _ _ h3, h4, h5, h6⟩

theorem wf_set_storage_value {c : StateCache} (hc : c.WF)
    (a : ContractAddress) (k : StorageKey) (v : StarkFelt) :
    (c.set_storage_value a k v).WF := by
  obtain ⟨h1, h2, h3, h4, h5, h6⟩ := hc
  exact ⟨h1, h2, h3, h4, h5, nodupKeys_alInsert _ _ _ h6⟩

theorem wf_set_nonce_initial_value {c : StateCache} (hc : c.WF)
    (a : ContractAddress) (n : Nonce) : (c.set_nonce_initial_value a n).WF := by
  obtain ⟨h1, h2, h3, h4, h5, h6⟩ := hc
  exact ⟨nodupKeys_alInsert _ _ _ h1, h2, h3, h4, h5, h6⟩

theorem wf_set_nonce_value {c : StateCache} (hc : c.WF)
    (a : ContractAddress) (n : Nonce) : (c.set_nonce_value a n).WF := by
  obtain ⟨h1, h2, h3, h4, h5, h6⟩ := hc
  exact ⟨h1, h2, h3, nodupKeys_alInsert _ _ _ h4, h5, h6⟩

theorem wf_set_class_hash_initial_value {c : StateCache} (hc : c.WF)
    (a : ContractAddress) (h : ClassHash) : (c.set_class_hash_initial_value a h).WF := by
  obtain ⟨h1, h2, h3, h4, h5, h6⟩ := hc
  exact ⟨h1, nodupKeys_alInsert _ _ _ h2, h3, h4, h5, h6⟩

theorem wf_set_class_hash_write {c : StateCache} (hc : c.WF)
    (a : ContractAddress) (h : ClassHash) : (c.set_class_hash_write a h).WF := by
  obtain ⟨h1, h2, h3, h4, h5, h6⟩ := hc
  exact ⟨h1, h2, h3, h4, nodupKeys_alInsert _ _ _ h5, h6⟩

theorem wf_get_storage_at {s : CachedState} (hs : s.WF) (a : ContractAddress)
    (k : StorageKey) : (s.get_storage_at a k).1.WF := by
  unfold CachedState.get_storage_at
  split
  · split
    · exact hs
    · dsimp only
      split <;> exact wf_set_storage_initial_value hs a k _
  · split <;> exact hs

theorem wf_get_nonce_at {s : CachedState} (hs : s.WF) (a : ContractAddress) :
    (s.get_nonce_at a).1.WF := by
  unfold CachedState.get_nonce_at
  split
  · split
    · exact hs
    · dsimp only
      split <;> exact wf_set_nonce_initial_value hs a _
  · split <;> exact hs

theorem wf_get_contract_class {s : CachedState} (hs : s.WF) (h : ClassHash) :
    (s.get_contract_class h).1.WF := by
  unfold CachedState.get_contract_class
  split
  · split
    · exact hs
    · dsimp only
      split <;> exact hs
  · split <;> exact hs

theorem wf_get_class_hash_at {s : CachedState} (hs : s.WF) (a : ContractAddress) :
    (s.get_class_hash_at a).1.WF := by
  unfold CachedState.get_class_hash_at
  split
  · split
    · exact hs
    · dsimp only
      split <;> exact wf_set_class_hash_initial_value hs a _
  · split <;> exact hs

theorem wf_increment_nonce {s : CachedState} (hs : s.WF) (usizeBits : Nat)
    (a : ContractAddress) : (CachedState.increment_nonce usizeBits s a).1.WF := by
  unfold CachedState.increment_nonce
  have hget := wf_get_nonce_at hs a
  split
  case _ s1 qs n heq =>
    rw [heq] at hget
    split
    · exact hget
    · exact wf_set_nonce_value hget a _
  case _ s1 qs e heq =>
    rw [heq] at hget
    exact hget
  case _ s1 qs heq =>
    rw [heq] at hget
    exact hget

theorem wf_set_class_hash_at {s : CachedState} (hs : s.WF) (a : ContractAddress)
    (h : ClassHash) : (s.set_class_hash_at a h).1.WF := by
  unfold CachedState.set_class_hash_at
  have hget := wf_get_class_hash_at hs a
  split
  · exact hs
  · split
    case _ s1 qs c heq =>
      rw [heq] at hget
      split
      · exact hget
      · exact wf_set_class_hash_write hget a _
    case _ s1 qs e heq =>
      rw [heq] at hget
      exact hget
    case _ s1 qs heq =>
      rw [heq] at hget
      exact hget

theorem wf_execOp {s : CachedState} (hs : s.WF) (usizeBits : Nat) (op : Op) :
    (execOp usizeBits s op).WF := by
  cases op with
  | getStorage a k => exact wf_get_storage_at hs a k
  | getNonce a => exact wf_get_nonce_at hs a
  | getContractClassOp h => exact wf_get_contract_class hs h
  | getClassHashAt a => exact wf_get_class_hash_at hs a
  | setStorage a k v => exact wf_set_storage_value hs a k v
  | incrementNonce a => exact wf_increment_nonce hs usizeBits a
  | setClassHashAt a h => exact wf_set_class_hash_at hs a h

theorem wf_execOps (usizeBits : Nat) (s : CachedState) (hs : s.WF) (ops : List Op) :
    (execOps usizeBits s ops).WF := by
  induction ops generalizing s with
  | nil => exact hs
  | cons op rest ih => exact ih _ (wf_execOp hs usizeBits op)

/-! ## Characterisation of the storage regrouping -/

theorem nodupKeys_reverse {K V : Type} (m : List (K × V)) (hm : NodupKeys m) :
    NodupKeys m.reverse := by
  unfold NodupKeys at hm ⊢
  rw [List.map_reverse, List.nodup_reverse]
  exact hm

theorem alLookup_reverse {K V : Type} [DecidableEq K]
    (m : List (K × V)) (hm : NodupKeys m) (k : K) :
    alLookup m.reverse k = alLookup m k := by
  have hrev := nodupKeys_reverse m hm
  cases h : alLookup m k with
  | some v =>
    rw [alLookup_eq_some_iff _ hrev, List.mem_reverse]
    rw [alLookup_eq_some_iff _ hm] at h
    exact h
  | none =>
    cases h' : alLookup m.reverse k with
    | none => rfl
    | some v =>
      rw [alLookup_eq_some_iff _ hrev, List.mem_reverse,
        ← alLookup_eq_some_iff _ hm, h] at h'
      exact Option.noConfusion h'

/-- One step of the regrouping fold records `(a, k) ↦ v` and leaves every
other grouped entry unchanged. -/
theorem storageDiffLookup_groupStep
    (acc : List (ContractAddress × List (StorageKey × StarkFelt)))
    (a : ContractAddress) (k : StorageKey) (v : StarkFelt)
    (a' : ContractAddress) (k' : StorageKey) :
    storageDiffLookup
        (match alLookup acc a with
          | some m => alInsert acc a (alInsert m k v)
          | none => acc ++ [(a, [(k, v)])]) a' k' =
      if a' = a ∧ k' = k then some v else storageDiffLookup acc a' k' := by
  by_cases ha : a' = a
  · subst ha
    cases hacc : alLookup acc a' with
    | some m =>
      unfold storageDiffLookup
      rw [alLookup_alInsert_self]
      dsimp only
      by_cases hk : k' = k
      · subst hk
        rw [alLookup_alInsert_self]
        simp
      · rw [alLookup_alInsert_ne _ _ _ _ hk, hacc]
        simp [hk]
    | none =>
      unfold storageDiffLookup
      rw [alLookup_append, hacc]
      by_cases hk : k' = k
      · subst hk
        simp
      · have hkk : ¬k = k' := fun h => hk h.symm
        simp [hk, hkk]
  · cases hacc : alLookup acc a with
    | some m =>
      unfold storageDiffLookup
      rw [alLookup_alInsert_ne _ _ _ _ ha]
      simp [ha]
    | none =>
      unfold storageDiffLookup
      rw [alLookup_append]
      have haa : ¬a = a' := fun h => ha h.symm
      cases h' : alLookup acc a' <;> simp [ha, haa]

/-- The regrouping fold resolves a pair `(a, k)` to the value of its last
occurrence in the flat sequence, falling back to the accumulator. -/
theorem storageDiffLookup_groupFold
    (flat : List (ContractStorageKey × StarkFelt))
    (acc : List (ContractAddress × List (StorageKey × StarkFelt)))
    (a : ContractAddress) (k : StorageKey) :
    storageDiffLookup
        (flat.foldl
          (fun storage_updates p =>
            match p with
            | ((address, key), value) =>
              match alLookup storage_updates address with
              | some m => alInsert storage_updates address (alInsert m key value)
              | none => storage_updates ++ [(address, [(key, value)])])
          acc) a k =
      match alLookup flat.reverse (a, k) with
      | some v => some v
      | none => storageDiffLookup acc a k := by
  induction flat generalizing acc with
  | nil => simp
  | cons p rest ih =>
    obtain ⟨⟨a0, k0⟩, v0⟩ := p
    rw [List.foldl_cons, ih, List.reverse_cons, alLookup_append,
      storageDiffLookup_groupStep]
    cases h : alLookup rest.reverse (a, k) with
    | some v => rfl
    | none =>
      by_cases he : a = a0 ∧ k = k0
      · obtain ⟨rfl, rfl⟩ := he
        simp
      · have he1 : ¬(a0, k0) = (a, k) := by
          intro hp
          injection hp with hp1 hp2
          exact he ⟨hp1.symm, hp2.symm⟩
        simp only [alLookup_cons, if_neg he1, alLookup_nil]
        rw [if_neg he]

/-- Lookup in the regrouped storage mapping agrees with lookup in the flat
map it was built from, whenever the flat map has distinct keys. -/
theorem storageDiffLookup_storageViewGroup
    (flat : List (ContractStorageKey × StarkFelt)) (hf : NodupKeys flat)
    (a : ContractAddress) (k : StorageKey) :
    storageDiffLookup (storageViewGroup flat) a k = alLookup flat (a, k) := by
  unfold storageViewGroup
  rw [storageDiffLookup_groupFold, alLookup_reverse _ hf]
  cases h : alLookup flat (a, k) <;> simp [storageDiffLookup]

theorem nodupKeys_subtractMappings {K V : Type} [DecidableEq K] [DecidableEq V]
    (lhs rhs : List (K × V)) (hl : NodupKeys lhs) :
    NodupKeys (subtractMappings lhs rhs) :=
  nodupKeys_filter _ lhs hl

/-- Execute a sequence of operations against a fresh `CachedState` over a
reader, as one transaction does. -/
def runOps (usizeBits : Nat) (r : StateReader) (ops : List Op) : CachedState :=
  execOps usizeBits (CachedState.new r) ops

/-- C1: For every sequence of reads and writes against a `CachedState`, the
diff extracted by the consuming `StateDiff` conversion contains an entry for a
key — in each of the storage, nonce, and class-hash-at-address portions — if
and only if a write-map entry exists for that key and either no initial-value
entry exists for that key or the initial value differs from the write value;
the emitted value equals the final write value exactly. -/
theorem diff_entry_iff_write_differs_from_initial (usizeBits : Nat)
    (r : StateReader) (ops : List Op) (a : ContractAddress) (k : StorageKey)
    (v : Nat) :
    (storageDiffLookup (runOps usizeBits r ops).intoStateDiff.storage_diffs a k = some v ↔
        alLookup (runOps usizeBits r ops).cache.storage_writes (a, k) = some v ∧
          alLookup (runOps usizeBits r ops).cache.storage_initial_values (a, k) ≠ some v) ∧
    (alLookup (runOps usizeBits r ops).intoStateDiff.nonces a = some v ↔
        alLookup (runOps usizeBits r ops).cache.nonce_writes a = some v ∧
          alLookup (runOps usizeBits r ops).cache.nonce_initial_values a ≠ some v) ∧
    (alLookup (runOps usizeBits r ops).intoStateDiff.deployed_contracts a = some v ↔
        alLookup (runOps usizeBits r ops).cache.class_hash_writes a = some v ∧
          alLookup (runOps usizeBits r ops).cache.class_hash_initial_values a ≠ some v) := by
  obtain ⟨h1, h2, h3, h4, h5, h6⟩ :=
    wf_execOps usizeBits (CachedState.new r) wf_empty_cache ops
  unfold runOps CachedState.intoStateDiff
  dsimp only
  refine ⟨?_, ?_, ?_⟩
  · rw [storageDiffLookup_storageViewGroup _ (nodupKeys_subtractMappings _ _ h6)]
    exact alLookup_subtractMappings _ _ h6 (a, k) v
  · exact alLookup_subtractMappings _ _ h4 a v
  · exact alLookup_subtractMappings _ _ h5 a v

/-- C2: The order of the emitted storage-diff mapping follows the iteration
order of the flat `HashMap` holding the subtraction result, not the order in
which the writes were inserted: the same map contents iterated in two
different orders — both of which `std::collections::HashMap` may produce,
since its iteration order is unspecified — regroup to differently ordered
mappings.  The claimed write-map insertion order is therefore not guaranteed
by the code. -/
theorem storage_diffs_order_follows_hashmap_iteration :
    storageViewGroup [((1, 10), 5), ((2, 20), 7)] = [(1, [(10, 5)]), (2, [(20, 7)])] ∧
    storageViewGroup [((2, 20), 7), ((1, 10), 5)] = [(2, [(20, 7)]), (1, [(10, 5)])] ∧
    storageViewGroup [((1, 10), 5), ((2, 20), 7)] ≠
      storageViewGroup [((2, 20), 7), ((1, 10), 5)] := by
  refine ⟨rfl, rfl, by decide⟩

/-- C3: `increment_nonce` computes `usize::try_from(current_nonce.0)? as u64`,
routing the value through the platform-pointer-width type `usize`.  For a
current nonce of `2 ^ 32`, which is representable in the fixed-width type
`u64` used for the addition, the increment fails with the arithmetic
conversion error on a 32-bit platform yet succeeds (recording `2 ^ 32 + 1`)
on a 64-bit platform — behaviour the claim rules out. -/
theorem increment_nonce_routes_through_usize :
    (CachedState.increment_nonce 32
        (CachedState.new (DictStateReader.reader { address_to_nonce := [(1, 2 ^ 32)] }))
        1).2.2 = .err .tryFromIntError ∧
    (CachedState.increment_nonce 64
        (CachedState.new (DictStateReader.reader { address_to_nonce := [(1, 2 ^ 32)] }))
        1).2.2 = .ok () ∧
    ((CachedState.increment_nonce 64
        (CachedState.new (DictStateReader.reader { address_to_nonce := [(1, 2 ^ 32)] }))
        1).1.cache.get_nonce_at 1) = some (2 ^ 32 + 1) := by
  refine ⟨by decide, by decide, by decide⟩

/-! ## Read-path characterisation: cache hits and fill-on-miss -/

theorem get_storage_at_cached {s : CachedState} {a : ContractAddress}
    {k : StorageKey} {v : StarkFelt} (h : s.cache.get_storage_at a k = some v) :
    s.get_storage_at a k = (s, [], .ok v) := by
  unfold CachedState.get_storage_at
  rw [h]
  rfl

theorem get_storage_at_miss {s : CachedState} {a : ContractAddress}
    {k : StorageKey} {v : StarkFelt}
    (hw : alLookup s.cache.storage_writes (a, k) = none)
    (hi : alLookup s.cache.storage_initial_values (a, k) = none)
    (hr : s.state_reader.get_storage_at a k = .ok v) :
    s.get_storage_at a k =
      ({ s with cache := s.cache.set_storage_initial_value a k v },
        [.storage a k], .ok v) := by
  have hmiss : s.cache.get_storage_at a k = none := by
    unfold StateCache.get_storage_at
    rw [hw, hi]
  have hfill : (s.cache.set_storage_initial_value a k v).get_storage_at a k = some v := by
    unfold StateCache.get_storage_at StateCache.set_storage_initial_value
    dsimp only
    rw [hw, alLookup_alInsert_self]
  unfold CachedState.get_storage_at
  rw [hmiss]
  dsimp only [Option.isNone_none, if_pos]
  rw [hr]
  dsimp only
  rw [hfill]
  rfl

theorem get_nonce_at_cached {s : CachedState} {a : ContractAddress} {n : Nonce}
    (h : s.cache.get_nonce_at a = some n) :
    s.get_nonce_at a = (s, [], .ok n) := by
  unfold CachedState.get_nonce_at
  rw [h]
  rfl

theorem get_nonce_at_miss {s : CachedState} {a : ContractAddress} {n : Nonce}
    (hw : alLookup s.cache.nonce_writes a = none)
    (hi : alLookup s.cache.nonce_initial_values a = none)
    (hr : s.state_reader.get_nonce_at a = .ok n) :
    s.get_nonce_at a =
      ({ s with cache := s.cache.set_nonce_initial_value a n }, [.nonce a], .ok n) := by
  have hmiss : s.cache.get_nonce_at a = none := by
    unfold StateCache.get_nonce_at
    rw [hw, hi]
  have hfill : (s.cache.set_nonce_initial_value a n).get_nonce_at a = some n := by
    unfold StateCache.get_nonce_at StateCache.set_nonce_initial_value
    dsimp only
    rw [hw, alLookup_alInsert_self]
  unfold CachedState.get_nonce_at
  rw [hmiss]
  dsimp only [Option.isNone_none, if_pos]
  rw [hr]
  dsimp only
  rw [hfill]
  rfl

theorem get_class_hash_at_cached {s : CachedState} {a : ContractAddress}
    {c : ClassHash} (h : s.cache.get_class_hash_at a = some c) :
    s.get_class_hash_at a = (s, [], .ok c) := by
  unfold CachedState.get_class_hash_at
  rw [h]
  rfl

theorem get_class_hash_at_miss {s : CachedState} {a : ContractAddress}
    {c : ClassHash}
    (hw : alLookup s.cache.class_hash_writes a = none)
    (hi : alLookup s.cache.class_hash_initial_values a = none)
    (hr : s.state_reader.get_class_hash_at a = .ok c) :
    s.get_class_hash_at a =
      ({ s with cache := s.cache.set_class_hash_initial_value a c },
        [.classHashAt a], .ok c) := by
  have hmiss : s.cache.get_class_hash_at a = none := by
    unfold StateCache.get_class_hash_at
    rw [hw, hi]
  have hfill : (s.cache.set_class_hash_initial_value a c).get_class_hash_at a = some c := by
    unfold StateCache.get_class_hash_at StateCache.set_class_hash_initial_value
    dsimp only
    rw [hw, alLookup_alInsert_self]
  unfold CachedState.get_class_hash_at
  rw [hmiss]
  dsimp only [Option.isNone_none, if_pos]
  rw [hr]
  dsimp only
  rw [hfill]
  rfl

theorem cache_get_storage_none {c : StateCache} {a : ContractAddress}
    {k : StorageKey} (h : c.get_storage_at a k = none) :
    alLookup c.storage_writes (a, k) = none ∧
      alLookup c.storage_initial_values (a, k) = none := by
  unfold StateCache.get_storage_at at h
  cases hw : alLookup c.storage_writes (a, k) with
  | some v =>
    rw [hw] at h
    exact Option.noConfusion h
  | none =>
    rw [hw] at h
    exact ⟨rfl, h⟩

theorem cache_get_nonce_none {c : StateCache} {a : ContractAddress}
    (h : c.get_nonce_at a = none) :
    alLookup c.nonce_writes a = none ∧ alLookup c.nonce_initial_values a = none := by
  unfold StateCache.get_nonce_at at h
  cases hw : alLookup c.nonce_writes a with
  | some v =>
    rw [hw] at h
    exact Option.noConfusion h
  | none =>
    rw [hw] at h
    exact ⟨rfl, h⟩

theorem cache_get_class_hash_none {c : StateCache} {a : ContractAddress}
    (h : c.get_class_hash_at a = none) :
    alLookup c.class_hash_writes a = none ∧
      alLookup c.class_hash_initial_values a = none := by
  unfold StateCache.get_class_hash_at at h
  cases hw : alLookup c.class_hash_writes a with
  | some v =>
    rw [hw] at h
    exact Option.noConfusion h
  | none =>
    rw [hw] at h
    exact ⟨rfl, h⟩

/-- The three possible runs of `get_storage_at`: cache hit; cache miss with a
reader error; cache miss filled from the reader. -/
theorem get_storage_at_shape (s : CachedState) (a : ContractAddress) (k : StorageKey) :
    (∃ v, s.cache.get_storage_at a k = some v ∧ s.get_storage_at a k = (s, [], .ok v)) ∨
    (s.cache.get_storage_at a k = none ∧
      ∃ e, s.state_reader.get_storage_at a k = .error e ∧
        s.get_storage_at a k = (s, [.storage a k], .err (.fromReader e))) ∨
    (s.cache.get_storage_at a k = none ∧
      ∃ v, s.state_reader.get_storage_at a k = .ok v ∧
        s.get_storage_at a k =
          ({ s with cache := s.cache.set_storage_initial_value a k v },
            [.storage a k], .ok v)) := by
  cases hc : s.cache.get_storage_at a k with
  | some v => exact Or.inl ⟨v, rfl, get_storage_at_cached hc⟩
  | none =>
    obtain ⟨hw, hi⟩ := cache_get_storage_none hc
    cases hr : s.state_reader.get_storage_at a k with
    | error e =>
      refine Or.inr (Or.inl ⟨rfl, e, rfl, ?_⟩)
      unfold CachedState.get_storage_at
      rw [hc, hr]
      rfl
    | ok v => exact Or.inr (Or.inr ⟨rfl, v, rfl, get_storage_at_miss hw hi hr⟩)

/-- The three possible runs of `get_nonce_at`. -/
theorem get_nonce_at_shape (s : CachedState) (a : ContractAddress) :
    (∃ n, s.cache.get_nonce_at a = some n ∧ s.get_nonce_at a = (s, [], .ok n)) ∨
    (s.cache.get_nonce_at a = none ∧
      ∃ e, s.state_reader.get_nonce_at a = .error e ∧
        s.get_nonce_at a = (s, [.nonce a], .err (.fromReader e))) ∨
    (s.cache.get_nonce_at a = none ∧
      ∃ n, s.state_reader.get_nonce_at a = .ok n ∧
        s.get_nonce_at a =
          ({ s with cache := s.cache.set_nonce_initial_value a n }, [.nonce a], .ok n)) := by
  cases hc : s.cache.get_nonce_at a with
  | some n => exact Or.inl ⟨n, rfl, get_nonce_at_cached hc⟩
  | none =>
    obtain ⟨hw, hi⟩ := cache_get_nonce_none hc
    cases hr : s.state_reader.get_nonce_at a with
    | error e =>
      refine Or.inr (Or.inl ⟨rfl, e, rfl, ?_⟩)
      unfold CachedState.get_nonce_at
      rw [hc, hr]
      rfl
    | ok n => exact Or.inr (Or.inr ⟨rfl, n, rfl, get_nonce_at_miss hw hi hr⟩)

/-- The three possible runs of `get_class_hash_at`. -/
theorem get_class_hash_at_shape (s : CachedState) (a : ContractAddress) :
    (∃ c, s.cache.get_class_hash_at a = some c ∧ s.get_class_hash_at a = (s, [], .ok c)) ∨
    (s.cache.get_class_hash_at a = none ∧
      ∃ e, s.state_reader.get_class_hash_at a = .error e ∧
        s.get_class_hash_at a = (s, [.classHashAt a], .err (.fromReader e))) ∨
    (s.cache.get_class_hash_at a = none ∧
      ∃ c, s.state_reader.get_class_hash_at a = .ok c ∧
        s.get_class_hash_at a =
          ({ s with cache := s.cache.set_class_hash_initial_value a c },
            [.classHashAt a], .ok c)) := by
  cases hc : s.cache.get_class_hash_at a with
  | some c => exact Or.inl ⟨c, rfl, get_class_hash_at_cached hc⟩
  | none =>
    obtain ⟨hw, hi⟩ := cache_get_class_hash_none hc
    cases hr : s.state_reader.get_class_hash_at a with
    | error e =>
      refine Or.inr (Or.inl ⟨rfl, e, rfl, ?_⟩)
      unfold CachedState.get_class_hash_at
      rw [hc, hr]
      rfl
    | ok c => exact Or.inr (Or.inr ⟨rfl, c, rfl, get_class_hash_at_miss hw hi hr⟩)

/-- The three possible runs of `get_contract_class`. -/
theorem get_contract_class_shape (s : CachedState) (h : ClassHash) :
    (∃ c, alLookup s.class_hash_to_class h = some c ∧
        s.get_contract_class h = (s, [], .ok c)) ∨
    (alLookup s.class_hash_to_class h = none ∧
      ∃ e, s.state_reader.get_contract_class h = .error e ∧
        s.get_contract_class h = (s, [.classAt h], .err (.fromReader e))) ∨
    (alLookup s.class_hash_to_class h = none ∧
      ∃ c, s.state_reader.get_contract_class h = .ok c ∧
        s.get_contract_class h =
          ({ s with class_hash_to_class := alInsert s.class_hash_to_class h c },
            [.classAt h], .ok c)) := by
  cases hc : alLookup s.class_hash_to_class h with
  | some c =>
    refine Or.inl ⟨c, rfl, ?_⟩
    unfold CachedState.get_contract_class
    rw [hc]
    rfl
  | none =>
    cases hr : s.state_reader.get_contract_class h with
    | error e =>
      refine Or.inr (Or.inl ⟨rfl, e, rfl, ?_⟩)
      unfold CachedState.get_contract_class
      rw [hc, hr]
      rfl
    | ok c =>
      refine Or.inr (Or.inr ⟨rfl, c, rfl, ?_⟩)
      unfold CachedState.get_contract_class
      rw [hc, hr]
      dsimp only
      rw [alLookup_alInsert_self]
      rfl

/-! ## Fill-then-hit facts -/

theorem cache_fill_hit_storage {c : StateCache} {a : ContractAddress}
    {k : StorageKey} {v : StarkFelt}
    (hw : alLookup c.storage_writes (a, k) = none) :
    (c.set_storage_initial_value a k v).get_storage_at a k = some v := by
  unfold StateCache.get_storage_at StateCache.set_storage_initial_value
  dsimp only
  rw [hw, alLookup_alInsert_self]

theorem cache_fill_hit_nonce {c : StateCache} {a : ContractAddress} {n : Nonce}
    (hw : alLookup c.nonce_writes a = none) :
    (c.set_nonce_initial_value a n).get_nonce_at a = some n := by
  unfold StateCache.get_nonce_at StateCache.set_nonce_initial_value
  dsimp only
  rw [hw, alLookup_alInsert_self]

theorem cache_fill_hit_class_hash {c : StateCache} {a : ContractAddress}
    {h : ClassHash} (hw : alLookup c.class_hash_writes a = none) :
    (c.set_class_hash_initial_value a h).get_class_hash_at a = some h := by
  unfold StateCache.get_class_hash_at StateCache.set_class_hash_initial_value
  dsimp only
  rw [hw, alLookup_alInsert_self]

theorem get_class_hash_at_writes_eq (s : CachedState) (a : ContractAddress) :
    (s.get_class_hash_at a).1.cache.class_hash_writes = s.cache.class_hash_writes := by
  rcases get_class_hash_at_shape s a with ⟨c, _, heq⟩ | ⟨_, e, _, heq⟩ | ⟨_, c, _, heq⟩ <;>
    (rw [heq]; try rfl)

/-- A successful `get_class_hash_at` leaves the returned class hash resolved
in the cache of the returned state. -/
theorem get_class_hash_at_ok_cache {s s1 : CachedState} {a : ContractAddress}
    {qs : List ReaderQuery} {c : ClassHash}
    (heq : s.get_class_hash_at a = (s1, qs, .ok c)) :
    s1.cache.get_class_hash_at a = some c := by
  rcases get_class_hash_at_shape s a with ⟨c', hc', heq'⟩ | ⟨_, e, _, heq'⟩ |
    ⟨hc', c', hr', heq'⟩
  · rw [heq'] at heq
    injection heq with h1 h2
    injection h2 with h2a h2b
    injection h2b with h2c
    subst h1
    subst h2c
    exact hc'
  · rw [heq'] at heq
    injection heq with h1 h2
    injection h2 with h2a h2b
    exact Outcome.noConfusion h2b
  · rw [heq'] at heq
    injection heq with h1 h2
    injection h2 with h2a h2b
    injection h2b with h2c
    subst h1
    subst h2c
    obtain ⟨hw', hi'⟩ := cache_get_class_hash_none hc'
    exact cache_fill_hit_class_hash hw'

/-- C4: A class-hash deployment write to the zero/default address fails with
the out-of-range error regardless of prior state.  Otherwise, if reading the
address's current class hash (fill-on-miss) yields a non-default hash, the
write fails with the address-unavailable error carrying the address, records
no write, and the address stays bound to its current (first-deployed) class
hash; if the current hash is the default, both checks pass and the write is
recorded. -/
theorem set_class_hash_at_deploy_once (s : CachedState) (a : ContractAddress)
    (h : ClassHash) :
    (a = 0 → s.set_class_hash_at a h = (s, [], .err .outOfRangeContractAddress)) ∧
    (a ≠ 0 → ∀ s1 qs c, s.get_class_hash_at a = (s1, qs, .ok c) → c ≠ 0 →
        s.set_class_hash_at a h = (s1, qs, .err (.unavailableContractAddress a)) ∧
        s1.get_class_hash_at a = (s1, [], .ok c) ∧
        s1.cache.class_hash_writes = s.cache.class_hash_writes) ∧
    (a ≠ 0 → ∀ s1 qs c, s.get_class_hash_at a = (s1, qs, .ok c) → c = 0 →
        s.set_class_hash_at a h =
          ({ s1 with cache := s1.cache.set_class_hash_write a h }, qs, .ok ())) := by
  refine ⟨?_, ?_, ?_⟩
  · intro ha
    subst ha
    unfold CachedState.set_class_hash_at
    rw [if_pos rfl]
  · intro ha s1 qs c heq hc
    have hcache := get_class_hash_at_ok_cache heq
    refine ⟨?_, get_class_hash_at_cached hcache, ?_⟩
    · unfold CachedState.set_class_hash_at
      rw [if_neg ha, heq]
      dsimp only
      rw [if_pos hc]
    · have hwr := get_class_hash_at_writes_eq s a
      rw [heq] at hwr
      exact hwr
  · intro ha s1 qs c heq hc0
    unfold CachedState.set_class_hash_at
    rw [if_neg ha, heq]
    dsimp only
    rw [if_neg (fun hn : c ≠ 0 => hn hc0)]

/-- Map-backed reader used to witness the theorems on concrete inputs:
storage cell `(1, 10) = 5`, nonce of address `1` is `7`, address `1` is
deployed with class hash `9`, and class hash `9` is declared with class `42`. -/
def sampleReader : DictStateReader :=
  { storage_view := [((1, 10), 5)]
    address_to_nonce := [(1, 7)]
    address_to_class_hash := [(1, 9)]
    class_hash_to_class := [(9, 42)] }

/-- Witness for `set_class_hash_at_deploy_once` at concrete inputs: deploying
to address 0 fails out-of-range; redeploying address 1 (already at class hash
9) fails address-unavailable and keeps 9; deploying the fresh address 2
records the write. -/
theorem set_class_hash_at_deploy_once_witness :
    (CachedState.new sampleReader.reader).set_class_hash_at 0 5 =
      (CachedState.new sampleReader.reader, [], .err .outOfRangeContractAddress) ∧
    (CachedState.new sampleReader.reader).set_class_hash_at 1 5 =
      (((CachedState.new sampleReader.reader).get_class_hash_at 1).1,
        [.classHashAt 1], .err (.unavailableContractAddress 1)) ∧
    ((CachedState.new sampleReader.reader).get_class_hash_at 1).1.get_class_hash_at 1 =
      (((CachedState.new sampleReader.reader).get_class_hash_at 1).1, [], .ok 9) ∧
    (CachedState.new sampleReader.reader).set_class_hash_at 2 5 =
      ({ ((CachedState.new sampleReader.reader).get_class_hash_at 2).1 with cache :=
          ((CachedState.new sampleReader.reader).get_class_hash_at 2).1.cache.set_class_hash_write 2 5 },
        [.classHashAt 2], .ok ()) := by
  have h1 := (set_class_hash_at_deploy_once (CachedState.new sampleReader.reader) 0 5).1 rfl
  have h2 := (set_class_hash_at_deploy_once (CachedState.new sampleReader.reader) 1 5).2.1
    (by decide) ((CachedState.new sampleReader.reader).get_class_hash_at 1).1
    [.classHashAt 1] 9 rfl (by decide)
  have h3 := (set_class_hash_at_deploy_once (CachedState.new sampleReader.reader) 2 5).2.2
    (by decide) ((CachedState.new sampleReader.reader).get_class_hash_at 2).1
    [.classHashAt 2] 0 rfl rfl
  exact ⟨h1, h2.1, h2.2.1, h3⟩

/-- C5: For a key of storage, nonce, or class-hash-at-address never written
and never read (no write-map and no initial-value entry), two successive
reads through `CachedState` return identical values and issue exactly one
query to the underlying reader: the first read queries once, records the
result as the initial value, and every later read resolves from the cache
with no further query and the same value. -/
theorem untouched_key_reads_query_reader_once (s : CachedState)
    (a : ContractAddress) (k : StorageKey) (v n c : Nat)
    (hsw : alLookup s.cache.storage_writes (a, k) = none)
    (hsi : alLookup s.cache.storage_initial_values (a, k) = none)
    (hsr : s.state_reader.get_storage_at a k = .ok v)
    (hnw : alLookup s.cache.nonce_writes a = none)
    (hni : alLookup s.cache.nonce_initial_values a = none)
    (hnr : s.state_reader.get_nonce_at a = .ok n)
    (hcw : alLookup s.cache.class_hash_writes a = none)
    (hci : alLookup s.cache.class_hash_initial_values a = none)
    (hcr : s.state_reader.get_class_hash_at a = .ok c) :
    ((s.get_storage_at a k).2 = ([.storage a k], .ok v) ∧
      (s.get_storage_at a k).1.get_storage_at a k =
        ((s.get_storage_at a k).1, [], .ok v)) ∧
    ((s.get_nonce_at a).2 = ([.nonce a], .ok n) ∧
      (s.get_nonce_at a).1.get_nonce_at a = ((s.get_nonce_at a).1, [], .ok n)) ∧
    ((s.get_class_hash_at a).2 = ([.classHashAt a], .ok c) ∧
      (s.get_class_hash_at a).1.get_class_hash_at a =
        ((s.get_class_hash_at a).1, [], .ok c)) := by
  have e1 := get_storage_at_miss hsw hsi hsr
  have e2 := get_nonce_at_miss hnw hni hnr
  have e3 := get_class_hash_at_miss hcw hci hcr
  refine ⟨⟨?_, ?_⟩, ⟨?_, ?_⟩, ⟨?_, ?_⟩⟩
  · rw [e1]
  · rw [e1]
    exact get_storage_at_cached (cache_fill_hit_storage hsw)
  · rw [e2]
  · rw [e2]
    exact get_nonce_at_cached (cache_fill_hit_nonce hnw)
  · rw [e3]
  · rw [e3]
    exact get_class_hash_at_cached (cache_fill_hit_class_hash hcw)

/-- Witness for `untouched_key_reads_query_reader_once` on the sample reader
with the fresh cache: all nine hypotheses hold definitionally. -/
theorem untouched_key_reads_query_reader_once_witness :
    (((CachedState.new sampleReader.reader).get_storage_at 1 10).2 =
        ([.storage 1 10], .ok 5) ∧
      ((CachedState.new sampleReader.reader).get_storage_at 1 10).1.get_storage_at 1 10 =
        ((((CachedState.new sampleReader.reader).get_storage_at 1 10).1), [], .ok 5)) ∧
    (((CachedState.new sampleReader.reader).get_nonce_at 1).2 = ([.nonce 1], .ok 7) ∧
      ((CachedState.new sampleReader.reader).get_nonce_at 1).1.get_nonce_at 1 =
        ((((CachedState.new sampleReader.reader).get_nonce_at 1).1), [], .ok 7)) ∧
    (((CachedState.new sampleReader.reader).get_class_hash_at 1).2 =
        ([.classHashAt 1], .ok 9) ∧
      ((CachedState.new sampleReader.reader).get_class_hash_at 1).1.get_class_hash_at 1 =
        ((((CachedState.new sampleReader.reader).get_class_hash_at 1).1), [], .ok 9)) :=
  untouched_key_reads_query_reader_once (CachedState.new sampleReader.reader)
    1 10 5 7 9 rfl rfl rfl rfl rfl rfl rfl rfl rfl

/-! ## Error atomicity -/

/-- Every initial-value entry of the first cache is present unchanged in the
second, and the write maps are identical (in particular, no write-map entry
was added). -/
def cacheIntact (c c' : StateCache) : Prop :=
  (∀ key v, alLookup c.storage_initial_values key = some v →
      alLookup c'.storage_initial_values key = some v) ∧
  (∀ a n, alLookup c.nonce_initial_values a = some n →
      alLookup c'.nonce_initial_values a = some n) ∧
  (∀ a h, alLookup c.class_hash_initial_values a = some h →
      alLookup c'.class_hash_initial_values a = some h) ∧
  c'.storage_writes = c.storage_writes ∧
  c'.nonce_writes = c.nonce_writes ∧
  c'.class_hash_writes = c.class_hash_writes

theorem cacheIntact_refl (c : StateCache) : cacheIntact c c :=
  ⟨fun _ _ h => h, fun _ _ h => h, fun _ _ h => h, rfl, rfl, rfl⟩

theorem cacheIntact_set_storage_initial {c : StateCache} {a : ContractAddress}
    {k : StorageKey} {v : StarkFelt}
    (hi : alLookup c.storage_initial_values (a, k) = none) :
    cacheIntact c (c.set_storage_initial_value a k v) := by
  unfold StateCache.set_storage_initial_value
  refine ⟨?_, fun _ _ h => h, fun _ _ h => h, rfl, rfl, rfl⟩
  intro key v' h
  exact alLookup_alInsert_of_absent _ _ _ hi key v' h

theorem cacheIntact_set_nonce_initial {c : StateCache} {a : ContractAddress}
    {n : Nonce} (hi : alLookup c.nonce_initial_values a = none) :
    cacheIntact c (c.set_nonce_initial_value a n) := by
  unfold StateCache.set_nonce_initial_value
  refine ⟨fun _ _ h => h, ?_, fun _ _ h => h, rfl, rfl, rfl⟩
  intro a' n' h
  exact alLookup_alInsert_of_absent _ _ _ hi a' n' h

theorem cacheIntact_set_class_hash_initial {c : StateCache} {a : ContractAddress}
    {ch : ClassHash} (hi : alLookup c.class_hash_initial_values a = none) :
    cacheIntact c (c.set_class_hash_initial_value a ch) := by
  unfold StateCache.set_class_hash_initial_value
  refine ⟨fun _ _ h => h, fun _ _ h => h, ?_, rfl, rfl, rfl⟩
  intro a' h' h
  exact alLookup_alInsert_of_absent _ _ _ hi a' h' h

/-- C8: Every fallible `CachedState` operation — the reads that can propagate
reader errors, nonce increment, and the class-hash deployment write — leaves,
when it returns an error, every previously recorded initial-value entry in
place with its value, leaves all three write maps exactly as they were (so the
failing operation records no write), and leaves the class-code cache intact;
only the typed error is returned. -/
theorem failing_op_leaves_cache_intact (s : CachedState) :
    (∀ a k e, (s.get_storage_at a k).2.2 = .err e →
        cacheIntact s.cache (s.get_storage_at a k).1.cache) ∧
    (∀ a e, (s.get_nonce_at a).2.2 = .err e →
        cacheIntact s.cache (s.get_nonce_at a).1.cache) ∧
    (∀ a e, (s.get_class_hash_at a).2.2 = .err e →
        cacheIntact s.cache (s.get_class_hash_at a).1.cache) ∧
    (∀ h e, (s.get_contract_class h).2.2 = .err e →
        cacheIntact s.cache (s.get_contract_class h).1.cache ∧
          (s.get_contract_class h).1.class_hash_to_class = s.class_hash_to_class) ∧
    (∀ usizeBits a e, (CachedState.increment_nonce usizeBits s a).2.2 = .err e →
        cacheIntact s.cache (CachedState.increment_nonce usizeBits s a).1.cache) ∧
    (∀ a h e, (s.set_class_hash_at a h).2.2 = .err e →
        cacheIntact s.cache (s.set_class_hash_at a h).1.cache) := by
  refine ⟨?_, ?_, ?_, ?_, ?_, ?_⟩
  · intro a k e h
    rcases get_storage_at_shape s a k with ⟨v, _, heq⟩ | ⟨_, e', _, heq⟩ | ⟨_, v, _, heq⟩
    · rw [heq] at h
      exact Outcome.noConfusion h
    · rw [heq]
      exact cacheIntact_refl _
    · rw [heq] at h
      exact Outcome.noConfusion h
  · intro a e h
    rcases get_nonce_at_shape s a with ⟨n, _, heq⟩ | ⟨_, e', _, heq⟩ | ⟨_, n, _, heq⟩
    · rw [heq] at h
      exact Outcome.noConfusion h
    · rw [heq]
      exact cacheIntact_refl _
    · rw [heq] at h
      exact Outcome.noConfusion h
  · intro a e h
    rcases get_class_hash_at_shape s a with ⟨c, _, heq⟩ | ⟨_, e', _, heq⟩ | ⟨_, c, _, heq⟩
    · rw [heq] at h
      exact Outcome.noConfusion h
    · rw [heq]
      exact cacheIntact_refl _
    · rw [heq] at h
      exact Outcome.noConfusion h
  · intro hcl e h
    rcases get_contract_class_shape s hcl with ⟨c, _, heq⟩ | ⟨_, e', _, heq⟩ | ⟨_, c, _, heq⟩
    · rw [heq] at h
      exact Outcome.noConfusion h
    · rw [heq]
      exact ⟨cacheIntact_refl _, rfl⟩
    · rw [heq] at h
      exact Outcome.noConfusion h
  · intro usizeBits a e h
    unfold CachedState.increment_nonce at h ⊢
    rcases get_nonce_at_shape s a with ⟨n, _, heq⟩ | ⟨_, e', _, heq⟩ | ⟨hc, n, _, heq⟩
    · rw [heq] at h ⊢
      dsimp only at h ⊢
      cases ht : usizeTryFromFelt usizeBits n
      · exact cacheIntact_refl _
      · rw [ht] at h
        exact Outcome.noConfusion h
    · rw [heq] at h ⊢
      exact cacheIntact_refl _
    · rw [heq] at h ⊢
      dsimp only at h ⊢
      cases ht : usizeTryFromFelt usizeBits n
      · exact cacheIntact_set_nonce_initial (cache_get_nonce_none hc).2
      · rw [ht] at h
        exact Outcome.noConfusion h
  · intro a hcl e h
    unfold CachedState.set_class_hash_at at h ⊢
    by_cases ha : a = 0
    · rw [if_pos ha]
      exact cacheIntact_refl _
    · rw [if_neg ha] at h ⊢
      rcases get_class_hash_at_shape s a with ⟨c, _, heq⟩ | ⟨_, e', _, heq⟩ | ⟨hc, c, _, heq⟩
      · rw [heq] at h ⊢
        dsimp only at h ⊢
        by_cases hc0 : c ≠ 0
        · rw [if_pos hc0]
          exact cacheIntact_refl _
        · rw [if_neg hc0] at h
          exact Outcome.noConfusion h
      · rw [heq] at h ⊢
        exact cacheIntact_refl _
      · rw [heq] at h ⊢
        dsimp only at h ⊢
        by_cases hc0 : c ≠ 0
        · rw [if_pos hc0]
          exact cacheIntact_set_class_hash_initial (cache_get_class_hash_none hc).2
        · rw [if_neg hc0] at h
          exact Outcome.noConfusion h

/-- A reader every query of which fails, standing for an external reader
implementation whose point queries error. -/
def failingReader : StateReader :=
  { get_storage_at := fun _ _ => .error (.other 1)
    get_nonce_at := fun _ => .error (.other 2)
    get_contract_class := fun _ => .error (.other 3)
    get_class_hash_at := fun _ => .error (.other 4) }

/-- Witness for `failing_op_leaves_cache_intact`: reader-error propagation on
all four reads over `failingReader`, the arithmetic failure of
`increment_nonce` on a 32-bit platform at nonce `2 ^ 32`, and the two
deployment-write failures, each leaves the cache intact. -/
theorem failing_op_leaves_cache_intact_witness :
    cacheIntact (CachedState.new failingReader).cache
      ((CachedState.new failingReader).get_storage_at 1 10).1.cache ∧
    cacheIntact (CachedState.new failingReader).cache
      ((CachedState.new failingReader).get_nonce_at 1).1.cache ∧
    cacheIntact (CachedState.new failingReader).cache
      ((CachedState.new failingReader).get_class_hash_at 1).1.cache ∧
    cacheIntact (CachedState.new failingReader).cache
      ((CachedState.new failingReader).get_contract_class 9).1.cache ∧
    cacheIntact
      (CachedState.new (DictStateReader.reader { address_to_nonce := [(1, 2 ^ 32)] })).cache
      (CachedState.increment_nonce 32
        (CachedState.new (DictStateReader.reader { address_to_nonce := [(1, 2 ^ 32)] }))
        1).1.cache ∧
    cacheIntact (CachedState.new sampleReader.reader).cache
      ((CachedState.new sampleReader.reader).set_class_hash_at 0 5).1.cache ∧
    cacheIntact (CachedState.new sampleReader.reader).cache
      ((CachedState.new sampleReader.reader).set_class_hash_at 1 5).1.cache := by
  refine ⟨(failing_op_leaves_cache_intact (CachedState.new failingReader)).1 1 10
      (.fromReader (.other 1)) rfl,
    (failing_op_leaves_cache_intact (CachedState.new failingReader)).2.1 1
      (.fromReader (.other 2)) rfl,
    (failing_op_leaves_cache_intact (CachedState.new failingReader)).2.2.1 1
      (.fromReader (.other 4)) rfl,
    ((failing_op_leaves_cache_intact (CachedState.new failingReader)).2.2.2.1 9
      (.fromReader (.other 3)) rfl).1,
    (failing_op_leaves_cache_intact
      (CachedState.new (DictStateReader.reader { address_to_nonce := [(1, 2 ^ 32)] }))).2.2.2.2.1
      32 1 .tryFromIntError (by decide),
    (failing_op_leaves_cache_intact (CachedState.new sampleReader.reader)).2.2.2.2.2
      0 5 .outOfRangeContractAddress rfl,
    (failing_op_leaves_cache_intact (CachedState.new sampleReader.reader)).2.2.2.2.2
      1 5 (.unavailableContractAddress 1) (by decide)⟩

/-- C9: The `DictStateReader`'s storage, nonce, and class-hash-at-address
queries are total — an absent key yields the type's zero/default value, never
an error — while its class-object query is partial: an absent class hash fails
with the undeclared-class error carrying that hash, and a present hash returns
the stored class. -/
theorem dict_reader_total_reads_and_undeclared_class (r : DictStateReader)
    (a : ContractAddress) (k : StorageKey) (h : ClassHash) :
    (∃ v, r.get_storage_at a k = .ok v) ∧
    (alLookup r.storage_view (a, k) = none → r.get_storage_at a k = .ok 0) ∧
    (∃ n, r.get_nonce_at a = .ok n) ∧
    (alLookup r.address_to_nonce a = none → r.get_nonce_at a = .ok 0) ∧
    (∃ c, r.get_class_hash_at a = .ok c) ∧
    (alLookup r.address_to_class_hash a = none → r.get_class_hash_at a = .ok 0) ∧
    (alLookup r.class_hash_to_class h = none →
        r.get_contract_class h = .error (.undeclaredClassHash h)) ∧
    (∀ c, alLookup r.class_hash_to_class h = some c → r.get_contract_class h = .ok c) := by
  refine ⟨⟨_, rfl⟩, ?_, ⟨_, rfl⟩, ?_, ⟨_, rfl⟩, ?_, ?_, ?_⟩
  · intro habs
    unfold DictStateReader.get_storage_at
    rw [habs]
    rfl
  · intro habs
    unfold DictStateReader.get_nonce_at
    rw [habs]
    rfl
  · intro habs
    unfold DictStateReader.get_class_hash_at
    rw [habs]
    rfl
  · intro habs
    unfold DictStateReader.get_contract_class
    rw [habs]
  · intro c hc
    unfold DictStateReader.get_contract_class
    rw [hc]

/-- Witness for `dict_reader_total_reads_and_undeclared_class` on the sample
reader at keys absent from all maps (address 2, key 3, class hash 8). -/
theorem dict_reader_total_reads_and_undeclared_class_witness :
    (∃ v, sampleReader.get_storage_at 2 3 = .ok v) ∧
    sampleReader.get_storage_at 2 3 = .ok 0 ∧
    (∃ n, sampleReader.get_nonce_at 2 = .ok n) ∧
    sampleReader.get_nonce_at 2 = .ok 0 ∧
    (∃ c, sampleReader.get_class_hash_at 2 = .ok c) ∧
    sampleReader.get_class_hash_at 2 = .ok 0 ∧
    sampleReader.get_contract_class 8 = .error (.undeclaredClassHash 8) ∧
    sampleReader.get_contract_class 9 = .ok 42 := by
  obtain ⟨h1, h2, h3, h4, h5, h6, h7, _⟩ :=
    dict_reader_total_reads_and_undeclared_class sampleReader 2 3 8
  exact ⟨h1, h2 rfl, h3, h4 rfl, h5, h6 rfl, h7 rfl,
    (dict_reader_total_reads_and_undeclared_class sampleReader 2 3 9).2.2.2.2.2.2.2
      42 rfl⟩

/-! ## Call frames (`src/crates/blockifier/src/execution/call_info.rs`) -/

/-- `StorageEntry`: a storage cell qualified by its contract address. -/
abbrev StorageEntry := ContractAddress × StorageKey

/-- The fields of `CallEntryPoint` (defined in `execution/entry_point.rs`,
outside this repository snapshot) that `call_info.rs` reads: the optional
callee class hash and the invoked contract address.  Its other fields are
owned by the interpreter and opaque here. -/
structure CallEntryPoint : Type where
  class_hash : Option ClassHash := none
  storage_address : ContractAddress := 0
  deriving DecidableEq, Repr

/-- `OrderedEvent`: a transaction-global order index plus an event content
(opaque external type, embedded as a number). -/
structure OrderedEvent : Type where
  order : Nat := 0
  event : Nat := 0
  deriving DecidableEq, Repr

/-- `MessageToL1`: an L1 recipient address (opaque) and an `L2ToL1Payload`,
which is a sequence of felts. -/
structure MessageToL1 : Type where
  to_address : Nat := 0
  payload : List StarkFelt := []
  deriving DecidableEq, Repr

/-- `OrderedL2ToL1Message`: a transaction-global order index plus a message. -/
structure OrderedL2ToL1Message : Type where
  order : Nat := 0
  message : MessageToL1 := {}
  deriving DecidableEq, Repr

/-- `get_payload_lengths`: the length of each message's payload, in order. -/
def get_payload_lengths (l2_to_l1_messages : List OrderedL2ToL1Message) : List Nat :=
  l2_to_l1_messages.map (fun message => message.message.payload.length)

/-- `CallExecution`: the effects of executing a single entry point. -/
structure CallExecution : Type where
  retdata : List StarkFelt := []
  events : List OrderedEvent := []
  l2_to_l1_messages : List OrderedL2ToL1Message := []
  failed : Bool := false
  gas_consumed : Nat := 0
  deriving DecidableEq, Repr

/-- `CallInfo`: one node of the call tree.  `resources` (`ExecutionResources`
from cairo-vm) is opaque here.  The Rust `accessed_storage_keys` is a
`HashSet<StorageKey>`, embedded as a `Finset`. -/
inductive CallInfo : Type where
  | mk (call : CallEntryPoint) (execution : CallExecution) (resources : Nat)
      (inner_calls : List CallInfo) (storage_read_values : List StarkFelt)
      (accessed_storage_keys : Finset StorageKey)

/-- Projection: `call`. -/
def CallInfo.call : CallInfo → CallEntryPoint
  | .mk c _ _ _ _ _ => c

/-- Projection: `execution`. -/
def CallInfo.execution : CallInfo → CallExecution
  | .mk _ e _ _ _ _ => e

/-- Projection: `inner_calls`. -/
def CallInfo.inner_calls : CallInfo → List CallInfo
  | .mk _ _ _ i _ _ => i

/-- Projection: `storage_read_values`. -/
def CallInfo.storage_read_values : CallInfo → List StarkFelt
  | .mk _ _ _ _ s _ => s

/-- Projection: `accessed_storage_keys`. -/
def CallInfo.accessed_storage_keys : CallInfo → Finset StorageKey
  | .mk _ _ _ _ _ a => a

mutual

/-- Number of frames in a call tree (for termination measures). -/
def CallInfo.size : CallInfo → Nat
  | .mk _ _ _ inner _ _ => 1 + CallInfo.sizeList inner

/-- Number of frames in a forest of call trees. -/
def CallInfo.sizeList : List CallInfo → Nat
  | [] => 0
  | c :: cs => CallInfo.size c + CallInfo.sizeList cs

end

theorem CallInfo.size_eq (c : CallInfo) :
    CallInfo.size c = 1 + CallInfo.sizeList c.inner_calls := by
  cases c
  rfl

theorem CallInfo.sizeList_append (l1 l2 : List CallInfo) :
    CallInfo.sizeList (l1 ++ l2) = CallInfo.sizeList l1 + CallInfo.sizeList l2 := by
  induction l1 with
  | nil => simp [CallInfo.sizeList]
  | cons c cs ih =>
    show CallInfo.size c + CallInfo.sizeList (cs ++ l2) =
      CallInfo.size c + CallInfo.sizeList cs + CallInfo.sizeList l2
    rw [ih]
    omega

/-- One step of `CallInfoIter::next`.  The iterator state is the Rust `Vec`
stack with its top first: `pop` takes the head, and `extend` with the
children reversed makes the first child the new top, so the head-first list
after a step is `inner_calls ++ rest`. -/
def CallInfoIter.next : List CallInfo → Option (CallInfo × List CallInfo)
  | [] => none
  | call_info :: rest => some (call_info, call_info.inner_calls ++ rest)

/-- Run the iterator to exhaustion from a given stack, collecting the yielded
frames in order. -/
def CallInfoIter.drain (stack : List CallInfo) : List CallInfo :=
  match stack with
  | [] => []
  | call_info :: rest => call_info :: CallInfoIter.drain (call_info.inner_calls ++ rest)
termination_by CallInfo.sizeList stack
decreasing_by
  simp only [CallInfo.sizeList_append, CallInfo.size_eq, CallInfo.sizeList]
  omega

/-- `CallInfo::iter`: start a traversal at this frame (`vec![self]`) and — in
this embedding of the lazy iterator — the full sequence it yields. -/
def CallInfo.iter (ci : CallInfo) : List CallInfo :=
  CallInfoIter.drain [ci]

mutual

/-- Specification-side pre-order DFS: a frame, then its children's subtrees
left to right. -/
def preorderTraversal : CallInfo → List CallInfo
  | .mk c e r inner srv ask =>
    .mk c e r inner srv ask :: preorderForest inner

/-- Pre-order DFS of a forest, one tree after the other. -/
def preorderForest : List CallInfo → List CallInfo
  | [] => []
  | c :: cs => preorderTraversal c ++ preorderForest cs

end

theorem preorderTraversal_eq (c : CallInfo) :
    preorderTraversal c = c :: preorderForest c.inner_calls := by
  cases c
  rfl

theorem drain_eq_preorderForest (stack : List CallInfo) :
    CallInfoIter.drain stack = preorderForest stack := by
  generalize hn : CallInfo.sizeList stack = n
  induction n using Nat.strong_induction_on generalizing stack with
  | _ n ih =>
    cases stack with
    | nil =>
      rw [CallInfoIter.drain]
      rfl
    | cons c rest =>
      rw [CallInfoIter.drain]
      have hlt : CallInfo.sizeList (c.inner_calls ++ rest) < n := by
        rw [CallInfo.sizeList_append]
        have h := CallInfo.size_eq c
        subst hn
        simp only [CallInfo.sizeList]
        omega
      rw [ih _ hlt _ rfl]
      have happ : ∀ l1 l2 : List CallInfo,
          preorderForest (l1 ++ l2) = preorderForest l1 ++ preorderForest l2 := by
        intro l1
        induction l1 with
        | nil => simp [preorderForest]
        | cons x xs ihx =>
          intro l2
          show preorderTraversal x ++ preorderForest (xs ++ l2) =
            (preorderTraversal x ++ preorderForest xs) ++ preorderForest l2
          rw [ihx, List.append_assoc]
      rw [happ]
      show c :: (preorderForest c.inner_calls ++ preorderForest rest) =
        preorderForest (c :: rest)
      rw [preorderForest, preorderTraversal_eq]
      simp

/-! ## Example call tree: root `R` with children `[A, B]`, `A` having `[A1]` -/

/-- Leaf frame `A1`. -/
def frameA1 : CallInfo :=
  .mk { class_hash := some 11, storage_address := 101 }
    { events := [{ order := 0, event := 1 }],
      l2_to_l1_messages := [{ order := 0, message := { to_address := 0, payload := [1, 2] } }] }
    0 [] [] {31}

/-- Frame `A`, with single child `A1`. -/
def frameA : CallInfo :=
  .mk { class_hash := some 12, storage_address := 102 }
    { events := [{ order := 1, event := 2 }, { order := 2, event := 3 }],
      l2_to_l1_messages := [{ order := 1, message := { to_address := 0, payload := [3] } }] }
    0 [frameA1] [] {32, 33}

/-- Leaf frame `B`. -/
def frameB : CallInfo :=
  .mk { class_hash := some 13, storage_address := 103 } {} 0 [] [] ∅

/-- Root frame `R`, with children `[A, B]`. -/
def frameR : CallInfo :=
  .mk { class_hash := some 10, storage_address := 100 }
    { l2_to_l1_messages := [{ order := 2, message := { to_address := 0, payload := [4, 5, 6] } }] }
    0 [frameA, frameB] [] {31}

/-- C6: `CallInfo::iter` yields the finite pre-order depth-first sequence of
the tree's frames — each frame before its descendants, children left to
right, one child's subtree complete before the next sibling — and on the
example tree (root `R` with children `[A, B]`, `A` having child `[A1]`) the
yielded sequence is exactly `[R, A, A1, B]`.  The traversal is a pure
function of the tree, so every call to `iter` yields this same sequence
afresh (independent, restartable iteration). -/
theorem call_info_iter_is_preorder_dfs :
    (∀ ci : CallInfo, ci.iter = preorderTraversal ci) ∧
    frameR.iter = [frameR, frameA, frameA1, frameB] := by
  have hmain : ∀ ci : CallInfo, ci.iter = preorderTraversal ci := by
    intro ci
    unfold CallInfo.iter
    rw [drain_eq_preorderForest]
    show preorderTraversal ci ++ preorderForest [] = preorderTraversal ci
    rw [preorderForest]
    simp
  refine ⟨hmain, ?_⟩
  rw [hmain frameR]
  simp [preorderTraversal_eq, preorderForest, frameR, frameA, frameA1, frameB,
    CallInfo.inner_calls]

/-! ## Execution summary -/

/-- `ExecutionSummary`: metering aggregate over call trees.  The Rust
`HashSet`s are embedded as `Finset`s. -/
structure ExecutionSummary : Type where
  executed_class_hashes : Finset ClassHash := ∅
  visited_storage_entries : Finset StorageEntry := ∅
  l2_to_l1_payload_lengths : List Nat := []
  n_events : Nat := 0

/-- `CallInfo::summarize`: one pass over `self.iter()`, inserting each frame's
class hash (`expect`ing it to be set — `none` models that panic), unioning the
frame's accessed storage keys paired with its contract address, adding its
event count, and appending its message payload lengths. -/
def CallInfo.summarize (ci : CallInfo) : Option ExecutionSummary :=
  ci.iter.foldlM
    (fun acc call_info =>
      match call_info.call.class_hash with
      | none => none
      | some class_hash =>
        some { executed_class_hashes := insert class_hash acc.executed_class_hashes
               visited_storage_entries := acc.visited_storage_entries ∪
                 call_info.accessed_storage_keys.image
                   (fun storage_key => (call_info.call.storage_address, storage_key))
               l2_to_l1_payload_lengths := acc.l2_to_l1_payload_lengths ++
                 get_payload_lengths call_info.execution.l2_to_l1_messages
               n_events := acc.n_events + call_info.execution.events.length })
    {}

/-- `CallInfo::get_l2_to_l1_payload_lengths`: fold over `self.iter()`
extending an accumulator with each frame's payload lengths. -/
def CallInfo.get_l2_to_l1_payload_lengths (ci : CallInfo) : List Nat :=
  ci.iter.foldl
    (fun acc call_info =>
      acc ++ get_payload_lengths call_info.execution.l2_to_l1_messages)
    []

/-- Characterisation of the `summarize` fold over any frame list, relative to
an arbitrary accumulator. -/
theorem summarize_foldlM (l : List CallInfo) (acc : ExecutionSummary)
    (hall : ∀ f ∈ l, f.call.class_hash.isSome = true) :
    ∃ s,
      l.foldlM
        (fun acc call_info =>
          match call_info.call.class_hash with
          | none => none
          | some class_hash =>
            some { executed_class_hashes := insert class_hash acc.executed_class_hashes
                   visited_storage_entries := acc.visited_storage_entries ∪
                     call_info.accessed_storage_keys.image
                       (fun storage_key => (call_info.call.storage_address, storage_key))
                   l2_to_l1_payload_lengths := acc.l2_to_l1_payload_lengths ++
                     get_payload_lengths call_info.execution.l2_to_l1_messages
                   n_events := acc.n_events + call_info.execution.events.length })
        acc = some s ∧
      (∀ h, h ∈ s.executed_class_hashes ↔
          h ∈ acc.executed_class_hashes ∨ ∃ f ∈ l, f.call.class_hash = some h) ∧
      (∀ en : StorageEntry, en ∈ s.visited_storage_entries ↔
          en ∈ acc.visited_storage_entries ∨
            ∃ f ∈ l, f.call.storage_address = en.1 ∧ en.2 ∈ f.accessed_storage_keys) ∧
      s.l2_to_l1_payload_lengths = acc.l2_to_l1_payload_lengths ++
        (l.map (fun f => get_payload_lengths f.execution.l2_to_l1_messages)).flatten ∧
      s.n_events = acc.n_events + (l.map (fun f => f.execution.events.length)).sum := by
  induction l generalizing acc with
  | nil => exact ⟨acc, rfl, by simp, by simp, by simp, by simp⟩
  | cons f fs ih =>
    have hf := hall f (List.mem_cons_self f fs)
    have hrest : ∀ g ∈ fs, g.call.class_hash.isSome = true :=
      fun g hg => hall g (List.mem_cons_of_mem f hg)
    cases hcl : f.call.class_hash with
    | none =>
      rw [hcl] at hf
      exact absurd hf (by simp)
    | some class_hash =>
      obtain ⟨s, hs, h1, h2, h3, h4⟩ := ih
        { executed_class_hashes := insert class_hash acc.executed_class_hashes
          visited_storage_entries := acc.visited_storage_entries ∪
            f.accessed_storage_keys.image
              (fun storage_key => (f.call.storage_address, storage_key))
          l2_to_l1_payload_lengths := acc.l2_to_l1_payload_lengths ++
            get_payload_lengths f.execution.l2_to_l1_messages
          n_events := acc.n_events + f.execution.events.length } hrest
      refine ⟨s, ?_, ?_, ?_, ?_, ?_⟩
      · rw [List.foldlM_cons, hcl]
        exact hs
      · intro h
        rw [h1 h]
        simp only [Finset.mem_insert, List.mem_cons]
        constructor
        · rintro ((rfl | hacc) | ⟨g, hg, hgh⟩)
          · exact Or.inr ⟨f, Or.inl rfl, hcl⟩
          · exact Or.inl hacc
          · exact Or.inr ⟨g, Or.inr hg, hgh⟩
        · rintro (hacc | ⟨g, (rfl | hg), hgh⟩)
          · exact Or.inl (Or.inr hacc)
          · rw [hcl] at hgh
            injection hgh with he
            exact Or.inl (Or.inl he.symm)
          · exact Or.inr ⟨g, hg, hgh⟩
      · intro en
        rw [h2 en]
        simp only [Finset.mem_union, Finset.mem_image, List.mem_cons]
        constructor
        · rintro ((hacc | ⟨k, hk, hke⟩) | ⟨g, hg, hgh⟩)
          · exact Or.inl hacc
          · refine Or.inr ⟨f, Or.inl rfl, ?_, ?_⟩
            · rw [← hke]
            · rw [← hke]
              exact hk
          · exact Or.inr ⟨g, Or.inr hg, hgh⟩
        · rintro (hacc | ⟨g, (rfl | hg), hga, hgk⟩)
          · exact Or.inl (Or.inl hacc)
          · refine Or.inl (Or.inr ⟨en.2, hgk, ?_⟩)
            rw [hga]
          · exact Or.inr ⟨g, hg, hga, hgk⟩
      · rw [h3]
        simp
      · rw [h4]
        simp
        omega

/-- The payload-length fold of `get_l2_to_l1_payload_lengths`, relative to an
arbitrary accumulator. -/
theorem payload_foldl (l : List CallInfo) (acc : List Nat) :
    l.foldl
        (fun acc call_info =>
          acc ++ get_payload_lengths call_info.execution.l2_to_l1_messages)
        acc =
      acc ++ (l.map (fun f => get_payload_lengths f.execution.l2_to_l1_messages)).flatten := by
  induction l generalizing acc with
  | nil => simp
  | cons f fs ih =>
    rw [List.foldl_cons, ih]
    simp

/-- C7: Under the precondition that every frame's class hash is assigned,
`summarize` succeeds and yields: an event count equal to the sum of every
frame's own event count; an executed-class-hashes set holding exactly the
frames' class hashes; a visited-storage-entries set holding exactly the
frames' own accessed storage keys paired with the owning frame's contract
address; and the payload-length sequence listing each visited frame's
L2-to-L1 message payload lengths in depth-first visit order. -/
theorem summarize_aggregates_frames (ci : CallInfo)
    (hall : ∀ f ∈ ci.iter, f.call.class_hash.isSome = true) :
    ∃ s, ci.summarize = some s ∧
      s.n_events = (ci.iter.map (fun f => f.execution.events.length)).sum ∧
      (∀ h, h ∈ s.executed_class_hashes ↔ ∃ f ∈ ci.iter, f.call.class_hash = some h) ∧
      (∀ a k, (a, k) ∈ s.visited_storage_entries ↔
          ∃ f ∈ ci.iter, f.call.storage_address = a ∧ k ∈ f.accessed_storage_keys) ∧
      s.l2_to_l1_payload_lengths =
        (ci.iter.map (fun f => get_payload_lengths f.execution.l2_to_l1_messages)).flatten := by
  obtain ⟨s, hs, h1, h2, h3, h4⟩ := summarize_foldlM ci.iter {} hall
  refine ⟨s, hs, ?_, ?_, ?_, ?_⟩
  · rw [h4]
    simp
  · intro h
    rw [h1 h]
    simp
  · intro a k
    rw [h2 (a, k)]
    simp
  · rw [h3]
    simp

/-- C10: Under the same precondition, the payload-length sequence computed by
`summarize` is exactly the sequence returned by
`get_l2_to_l1_payload_lengths`: both walk the frames in the same pre-order
depth-first order and list each frame's message payload lengths in stored
order. -/
theorem summarize_payload_lengths_match_get (ci : CallInfo)
    (hall : ∀ f ∈ ci.iter, f.call.class_hash.isSome = true) :
    ∃ s, ci.summarize = some s ∧
      s.l2_to_l1_payload_lengths = ci.get_l2_to_l1_payload_lengths := by
  obtain ⟨s, hs, h1, h2, h3, h4⟩ := summarize_foldlM ci.iter {} hall
  refine ⟨s, hs, ?_⟩
  rw [h3]
  unfold CallInfo.get_l2_to_l1_payload_lengths
  rw [payload_foldl]

/-- Witness for `summarize_aggregates_frames` on the example tree, whose
frames all carry a class hash. -/
theorem summarize_aggregates_frames_witness :
    ∃ s, frameR.summarize = some s ∧
      s.n_events = (frameR.iter.map (fun f => f.execution.events.length)).sum ∧
      (∀ h, h ∈ s.executed_class_hashes ↔ ∃ f ∈ frameR.iter, f.call.class_hash = some h) ∧
      (∀ a k, (a, k) ∈ s.visited_storage_entries ↔
          ∃ f ∈ frameR.iter, f.call.storage_address = a ∧ k ∈ f.accessed_storage_keys) ∧
      s.l2_to_l1_payload_lengths =
        (frameR.iter.map (fun f => get_payload_lengths f.execution.l2_to_l1_messages)).flatten :=
  summarize_aggregates_frames frameR (by
    simp [CallInfo.iter, CallInfoIter.drain, frameR, frameA, frameA1, frameB,
      CallInfo.inner_calls, CallInfo.call])

/-- Witness for `summarize_payload_lengths_match_get` on the example tree. -/
theorem summarize_payload_lengths_match_get_witness :
    ∃ s, frameR.summarize = some s ∧
      s.l2_to_l1_payload_lengths = frameR.get_l2_to_l1_payload_lengths :=
  summarize_payload_lengths_match_get frameR (by
    simp [CallInfo.iter, CallInfoIter.drain, frameR, frameA, frameA1, frameB,
      CallInfo.inner_calls, CallInfo.call])

end Blockifier
